import Mathlib

/-!
# Kalman_Filters_Webserver: the scalar Kalman filter and its sampling loop

A shallow embedding of `src/Kalman_Filters_Webserver/src/main.cpp`.

* `KalmanFilter` is the class of lines 7-28, generic in the carrier of its five
  `float` fields.  `update` and `setParameters` are the two member functions,
  written assignment by assignment.
* The carrier `F32` is IEEE 754 binary32, the C++ type `float`: every operation is the
  exact operation on extended values (`Flt`) followed by rounding to nearest, ties to
  even, with 24 significant bits, gradual underflow below `2^-126` and overflow to an
  infinity from `2^128` on.  Each operation of the source is rounded on its own (no
  fused multiply-add), and the two zeros are not told apart: the only division of
  `update` has the new `P` as dividend and the new `P` plus `R` as divisor, and that
  sum is a negative zero only when the dividend is a zero too, so the results are the
  same.  All numeric statements about the filter are made over `F32`.
* The carrier `Flt` is the extended values themselves (a rational, `±∞` or NaN) with
  the exact operations; it is used where rounding plays no role.
* The carrier `ℚ` is used by `loop`, whose statements do not depend on the arithmetic
  of the filter.
* `loop` is one iteration of `loop()` (lines 153-177): the clock is a 32-bit
  unsigned counter, the calls it makes are recorded in order as `Event`s.
-/

/-! ## The carrier with IEEE special values -/

/-- A `float` value without rounding: a finite rational, an infinity (`neg = true`
for `-∞`) or NaN.  Signed zeros are not distinguished. -/
inductive Flt where
  | fin (q : ℚ)
  | inf (neg : Bool)
  | nan
deriving DecidableEq

namespace Flt

/-- True exactly on the finite values. -/
def isFinite : Flt → Bool
  | fin _ => true
  | _ => false

/-- IEEE addition: NaN is absorbing, `∞ + (-∞)` is NaN. -/
def add : Flt → Flt → Flt
  | fin a, fin b => fin (a + b)
  | fin _, inf s => inf s
  | inf s, fin _ => inf s
  | inf s, inf t => if s = t then inf s else nan
  | _, _ => nan

/-- IEEE negation. -/
def neg : Flt → Flt
  | fin a => fin (-a)
  | inf s => inf (!s)
  | nan => nan

/-- IEEE subtraction, `a - b = a + (-b)`. -/
def sub (a b : Flt) : Flt := add a (neg b)

/-- IEEE multiplication: `0 * ∞` is NaN, otherwise the sign of an infinite product is
the product of the signs. -/
def mul : Flt → Flt → Flt
  | fin a, fin b => fin (a * b)
  | fin a, inf s => if a = 0 then nan else inf (xor (decide (a < 0)) s)
  | inf s, fin b => if b = 0 then nan else inf (xor s (decide (b < 0)))
  | inf s, inf t => inf (xor s t)
  | _, _ => nan

/-- IEEE division: `0 / 0` and `∞ / ∞` are NaN, a nonzero finite value over zero is an
infinity, a finite value over an infinity is zero. -/
def div : Flt → Flt → Flt
  | fin a, fin b =>
      if b = 0 then (if a = 0 then nan else inf (decide (a < 0))) else fin (a / b)
  | fin _, inf _ => fin 0
  | inf s, fin b => inf (xor s (decide (b < 0)))
  | _, _ => nan

instance : Add Flt := ⟨add⟩
instance : Sub Flt := ⟨sub⟩
instance : Mul Flt := ⟨mul⟩
instance : Div Flt := ⟨div⟩
instance : OfNat Flt 1 := ⟨fin 1⟩

end Flt

/-! ## Rounding to a binary floating-point format -/

namespace Bin

/-- The position of the leading bit of `n`, searched with `fuel` halvings. -/
def log2Fuel : Nat → Nat → Nat
  | 0, _ => 0
  | fuel + 1, n => if n < 2 then 0 else log2Fuel fuel (n / 2) + 1

/-- The position of the leading bit of `n`: `2 ^ log2 n ≤ n < 2 ^ (log2 n + 1)` for
`n ≠ 0`. -/
def log2 (n : Nat) : Nat := log2Fuel n n

/-- The exponent of the binade of `a`: `2 ^ expo a ≤ |a| < 2 ^ (expo a + 1)` for
`a ≠ 0`. -/
def expo (a : ℚ) : Int :=
  let e0 : Int := (log2 a.num.natAbs : Int) - (log2 a.den : Int)
  if (2 : ℚ) ^ e0 ≤ |a| then e0 else e0 - 1

/-- Rounding to the nearest integer, ties to the even one. -/
def rne (x : ℚ) : Int :=
  let f := ⌊x⌋
  if x - f < 1 / 2 then f
  else if 1 / 2 < x - f then f + 1
  else if f % 2 = 0 then f else f + 1

/-- The spacing of the numbers of the format around `a`: `p` significant bits, the
exponent not below `emin`. -/
def ulp (p : ℕ) (emin : ℤ) (a : ℚ) : ℚ := (2 : ℚ) ^ (max (expo a) emin - ((p : ℤ) - 1))

/-- The number of the format nearest to `a ≥ 0`, ties to even. -/
def mag (p : ℕ) (emin : ℤ) (a : ℚ) : ℚ := (rne (a / ulp p emin a) : ℚ) * ulp p emin a

/-- The number of the format nearest to `a`, ties to even, the range being unbounded. -/
def roundQ (p : ℕ) (emin : ℤ) (a : ℚ) : ℚ :=
  if a < 0 then -mag p emin (-a) else mag p emin a

/-- Rounding of a real value to the format: to nearest, ties to even, `±∞` from
`2 ^ emax` on. -/
def round (p : ℕ) (emin emax : ℤ) (a : ℚ) : Flt :=
  if (2 : ℚ) ^ emax ≤ |roundQ p emin a| then Flt.inf (decide (a < 0))
  else Flt.fin (roundQ p emin a)

/-- Rounding of an exact result: infinities and NaN are kept. -/
def rnd (p : ℕ) (emin emax : ℤ) : Flt → Flt
  | Flt.fin q => round p emin emax q
  | x => x

end Bin

/-! ## The filter (main.cpp, lines 7-28) -/

/-- The five private fields of `class KalmanFilter` (lines 9-13). -/
structure KalmanFilter (α : Type) where
  /-- Process noise. -/
  Q : α
  /-- Measurement noise. -/
  R : α
  /-- Estimation error. -/
  P : α
  /-- Kalman gain. -/
  K : α
  /-- State estimate. -/
  X : α
deriving DecidableEq

namespace KalmanFilter

variable {α : Type}

/-- A default-constructed filter, from the member initialisers of lines 9-13:
`Q = 0.1, R = 1.0, P = 1.0, K = 0.0, X = 0.0`; `lit` reads a decimal literal into the
carrier. -/
def init (lit : ℚ → α) : KalmanFilter α :=
  { Q := lit (1 / 10), R := lit 1, P := lit 1, K := lit 0, X := lit 0 }

/-- `float update(float measurement)` (lines 16-22): the four assignments in order,
then `return X`.  The result is the filter after the call and the returned value. -/
def update [Add α] [Sub α] [Mul α] [Div α] [OfNat α 1]
    (s : KalmanFilter α) (measurement : α) : KalmanFilter α × α :=
  let s1 := { s with P := s.P + s.Q }
  let s2 := { s1 with K := s1.P / (s1.P + s1.R) }
  let s3 := { s2 with X := s2.X + s2.K * (measurement - s2.X) }
  let s4 := { s3 with P := (1 - s3.K) * s3.P }
  (s4, s4.X)

/-- `void setParameters(float process_noise, float measurement_noise)` (lines 24-27). -/
def setParameters (s : KalmanFilter α) (process_noise measurement_noise : α) :
    KalmanFilter α :=
  { s with Q := process_noise, R := measurement_noise }

/-- The filter after `n` consecutive calls `update(m)` with one and the same `m`. -/
def feed [Add α] [Sub α] [Mul α] [Div α] [OfNat α 1]
    (s : KalmanFilter α) (m : α) : Nat → KalmanFilter α
  | 0 => s
  | n + 1 => (update (feed s m n) m).1

/-- Reading a filter over `ℚ` as a filter over `Flt` with finite fields. -/
def toFlt (s : KalmanFilter ℚ) : KalmanFilter Flt :=
  { Q := Flt.fin s.Q, R := Flt.fin s.R, P := Flt.fin s.P, K := Flt.fin s.K,
    X := Flt.fin s.X }

end KalmanFilter

/-- The global `KalmanFilter kalmanFilter;` of line 35, as constructed, read over `ℚ`
(see `F32.kalmanFilter` for the `float` fields). -/
def kalmanFilter : KalmanFilter ℚ := KalmanFilter.init id

/-- The filter as `setup()` leaves it: `kalmanFilter.setParameters(0.1, 1.0)`
(line 129), read over `ℚ`. -/
def kalmanFilterAfterSetup : KalmanFilter ℚ := kalmanFilter.setParameters (1 / 10) 1

/-! ## Fixed-point rendering -/

/-- The integer `x * 10 ^ d` rounded to the nearest integer, halves away from zero. -/
def scaledRound (d : Nat) (x : ℚ) : Int :=
  let n := x.num.natAbs * 10 ^ d
  let q : Nat := (2 * n + x.den) / (2 * x.den)
  if x.num < 0 then -(q : Int) else (q : Int)

/-- The value `x` rounded to `d` decimal places. -/
def roundDec (d : Nat) (x : ℚ) : ℚ := (scaledRound d x : ℚ) / (10 : ℚ) ^ d

/-- The last `k` decimal digits of `n`, most significant first. -/
def lastDigits : Nat → Nat → List Char
  | 0, _ => []
  | k + 1, n => lastDigits k (n / 10) ++ [Char.ofNat (48 + n % 10)]

/-- The decimal digits of `n` without leading zeros (`0` is one digit); `fuel` bounds
the number of digits. -/
def natDigits : Nat → Nat → List Char
  | 0, _ => []
  | fuel + 1, n =>
      if n < 10 then [Char.ofNat (48 + n)]
      else natDigits fuel (n / 10) ++ [Char.ofNat (48 + n % 10)]

/-- Modelled from the spec: `String(value, 3)` of the Arduino core, which is not part
of this repository; the spec calls it the fixed-point textual rendering to three
decimal places.  A minus sign for a negative value, the integer part, a point and
three decimals, rounded to the nearest thousandth. -/
def String3 (x : ℚ) : String :=
  let a := (scaledRound 3 x).natAbs
  let body := natDigits (a / 1000 + 1) (a / 1000) ++ ['.'] ++ lastDigits 3 (a % 1000)
  String.mk (if x < 0 then '-' :: body else body)

/-! ## One iteration of `loop()` (main.cpp, lines 153-177) -/

/-- The calls `loop()` makes to its collaborators, in the order they are made. -/
inductive Event where
  /-- A call of `millis()` and the value it returned. -/
  | millis (value : Nat)
  /-- The call `random(-100, 100)` and the value it returned. -/
  | random (value : Int)
  /-- The call `kalmanFilter.update(noisy_measurement)`. -/
  | update (measurement : ℚ)
  /-- The call `ws.textAll(jsonString)`. -/
  | textAll (msg : String)
  /-- The call `Serial.printf(...)` with its three arguments. -/
  | printf (true_value noisy_measurement filtered_value : ℚ)
deriving DecidableEq

/-- What the environment answers during one iteration: the uptime in milliseconds at
the three calls of `millis()` (lines 157, 158, 161) and the result of
`random(-100, 100)` (line 162). -/
structure TickInput where
  uptime0 : Nat
  uptime1 : Nat
  uptime2 : Nat
  rnd : Int
deriving DecidableEq

/-- What survives from one iteration to the next: the `static unsigned long
lastUpdate` and the global filter. -/
structure LoopState where
  lastUpdate : Nat
  kalmanFilter : KalmanFilter ℚ
deriving DecidableEq

/-- `millis()`: the uptime as a 32-bit `unsigned long`. -/
def millis (uptime : Nat) : Nat := uptime % 2 ^ 32

/-- `const unsigned long UPDATE_INTERVAL = 50;` (line 155). -/
def UPDATE_INTERVAL : Nat := 50

/-- The 32-bit unsigned difference `now - lastUpdate` of line 157. -/
def elapsed (now lastUpdate : Nat) : Nat :=
  (now % 2 ^ 32 + 2 ^ 32 - lastUpdate % 2 ^ 32) % 2 ^ 32

/-- The string built in lines 166-168; `render` is `String(·, 3)`. -/
def jsonString (render : ℚ → String) (true_value noisy_measurement filtered_value : ℚ) :
    String :=
  "\x7b\"true\":" ++ render true_value ++
    ",\"noisy\":" ++ render noisy_measurement ++
    ",\"filtered\":" ++ render filtered_value ++ "\x7d"

/-- Line 161: `float true_value = 10 * sin(millis() / 1000.0);`, `now` being the value of
`millis()` and `sinF` the library function `sin`. -/
def true_value (sinF : ℚ → ℚ) (now : Nat) : ℚ := 10 * sinF ((now : ℚ) / 1000)

/-- Line 162: `float noisy_measurement = true_value + random(-100, 100) / 100.0;`, `rnd`
being the value of `random(-100, 100)`. -/
def noisy_measurement (true_value : ℚ) (rnd : Int) : ℚ := true_value + (rnd : ℚ) / 100

/-- One iteration of `loop()`.  `render` is `String(·, 3)` and `sinF` is `sin`, both
library functions; the result is the state after the iteration and the calls made. -/
def loop (render : ℚ → String) (sinF : ℚ → ℚ) (st : LoopState) (i : TickInput) :
    LoopState × List Event :=
  if UPDATE_INTERVAL ≤ elapsed (millis i.uptime0) st.lastUpdate then
    let lastUpdate := millis i.uptime1
    let t := true_value sinF (millis i.uptime2)
    let n := noisy_measurement t i.rnd
    let r := st.kalmanFilter.update n
    let filtered_value := r.2
    let json := jsonString render t n filtered_value
    ({ lastUpdate := lastUpdate, kalmanFilter := r.1 },
      [Event.millis (millis i.uptime0), Event.millis (millis i.uptime1),
        Event.millis (millis i.uptime2), Event.random i.rnd,
        Event.update n, Event.textAll json, Event.printf t n filtered_value])
  else
    (st, [Event.millis (millis i.uptime0)])

/-- Consecutive iterations of `loop()`, one per input, with all calls made. -/
def loops (render : ℚ → String) (sinF : ℚ → ℚ) :
    LoopState → List TickInput → LoopState × List Event
  | st, [] => (st, [])
  | st, i :: is =>
      let r := loop render sinF st i
      let r2 := loops render sinF r.1 is
      (r2.1, r.2 ++ r2.2)

/-- The messages handed to `ws.textAll`, in order. -/
def broadcasts : List Event → List String
  | [] => []
  | Event.textAll msg :: es => msg :: broadcasts es
  | _ :: es => broadcasts es

/-- The measurements passed to `kalmanFilter.update`, in order. -/
def updateCalls : List Event → List ℚ
  | [] => []
  | Event.update m :: es => m :: updateCalls es
  | _ :: es => updateCalls es

/-! ## The carrier binary32 -/

/-- A value of the C++ type `float` (IEEE 754 binary32). -/
structure F32 where
  /-- The value: a rational, an infinity or NaN. -/
  val : Flt
deriving DecidableEq

namespace F32

/-- The exact result of an operation, rounded to binary32. -/
def rnd (x : Flt) : F32 := ⟨Bin.rnd 24 (-126) 128 x⟩

/-- A rational rounded to binary32. -/
def ofRat (q : ℚ) : F32 := ⟨Bin.round 24 (-126) 128 q⟩

/-- A decimal literal of the source, such as `0.1` or `1.0`: a `double` (binary64),
converted to `float`. -/
def lit (q : ℚ) : F32 := rnd (Bin.round 53 (-1022) 1024 q)

/-- The binary32 operations: the exact operation, then rounding. -/
instance : Add F32 := ⟨fun a b => rnd (Flt.add a.val b.val)⟩
instance : Sub F32 := ⟨fun a b => rnd (Flt.sub a.val b.val)⟩
instance : Mul F32 := ⟨fun a b => rnd (Flt.mul a.val b.val)⟩
instance : Div F32 := ⟨fun a b => rnd (Flt.div a.val b.val)⟩
instance : OfNat F32 1 := ⟨⟨Flt.fin 1⟩⟩

/-- The rational `q` is a finite binary32 value. -/
def IsF32 (q : ℚ) : Prop := Bin.round 24 (-126) 128 q = Flt.fin q

instance (q : ℚ) : Decidable (IsF32 q) :=
  inferInstanceAs (Decidable (Bin.round 24 (-126) 128 q = Flt.fin q))

/-- The global `KalmanFilter kalmanFilter;` of line 35 with its `float` fields, as
constructed from the member initialisers. -/
def kalmanFilter : KalmanFilter F32 := KalmanFilter.init lit

/-- The filter as `setup()` leaves it: `kalmanFilter.setParameters(0.1, 1.0)`
(line 129). -/
def kalmanFilterAfterSetup : KalmanFilter F32 :=
  kalmanFilter.setParameters (lit (1 / 10)) (lit 1)

/-- Rounding to binary32, without overflow. -/
def rq (a : ℚ) : ℚ := Bin.roundQ 24 (-126) a

/-- The gains of the next `n` calls of `update` all lie in `[0.27, 1]`. -/
def gainsOK : Nat → KalmanFilter F32 → Bool
  | 0, _ => true
  | n + 1, s =>
      (match (KalmanFilter.update s (lit 0)).1.K.val with
        | Flt.fin k => decide (27 / 100 ≤ k ∧ k ≤ 1)
        | _ => false) &&
      gainsOK n (KalmanFilter.update s (lit 0)).1

/-- A bound on `|X - m|` after `n` calls `update(m)` from `X = 0`, for `|m| ≤ 25000`. -/
def errB : Nat → ℚ
  | 0 => 25000
  | n + 1 => 7301 / 10000 * errB n + 25000 / 2 ^ 24 + 4 / 2 ^ 150

/-- A state on which `P + Q` rounds to `P` and `P + R` cancels: `P = 1`, `Q = 2^-25`,
`R = -1`. -/
def cancelState : KalmanFilter F32 :=
  { Q := ofRat (1 / 2 ^ 25), R := ofRat (-1), P := ofRat 1, K := ofRat 0, X := ofRat 0 }

end F32

/-! ## Lemmas on rounding -/

namespace Bin

theorem log2Fuel_spec : ∀ (fuel n : Nat), n ≤ fuel → n ≠ 0 →
    2 ^ log2Fuel fuel n ≤ n ∧ n < 2 ^ (log2Fuel fuel n + 1) := by
  intro fuel
  induction fuel with
  | zero => intro n h h0; omega
  | succ fuel ih =>
    intro n h h0
    unfold log2Fuel
    by_cases h2 : n < 2
    · rw [if_pos h2]
      have : n = 1 := by omega
      subst this
      norm_num
    · rw [if_neg h2]
      have hd := ih (n / 2) (by omega) (by omega)
      have e1 : 2 ^ (log2Fuel fuel (n / 2) + 1) = 2 * 2 ^ log2Fuel fuel (n / 2) := by ring
      have e2 : 2 ^ (log2Fuel fuel (n / 2) + 1 + 1) = 2 * 2 ^ (log2Fuel fuel (n / 2) + 1) := by
        ring
      constructor
      · rw [e1]; omega
      · rw [e2]; omega

theorem log2_spec (n : Nat) (h : n ≠ 0) : 2 ^ log2 n ≤ n ∧ n < 2 ^ (log2 n + 1) :=
  log2Fuel_spec n n le_rfl h

theorem two_zpow_pos (e : ℤ) : (0 : ℚ) < 2 ^ e := zpow_pos (by norm_num) e

theorem two_zpow_le {m n : ℤ} (h : m ≤ n) : (2 : ℚ) ^ m ≤ 2 ^ n :=
  zpow_le_zpow_right₀ (by norm_num) h

theorem two_zpow_lt {m n : ℤ} (h : m < n) : (2 : ℚ) ^ m < 2 ^ n :=
  zpow_lt_zpow_right₀ (by norm_num) h

theorem two_zpow_succ (e : ℤ) : (2 : ℚ) ^ (e + 1) = 2 * 2 ^ e := by
  rw [zpow_add₀ (by norm_num : (2 : ℚ) ≠ 0), zpow_one]; ring

/-- The binade of a nonzero rational. -/
theorem expo_spec (a : ℚ) (ha : a ≠ 0) : (2 : ℚ) ^ expo a ≤ |a| ∧ |a| < 2 ^ (expo a + 1) := by
  have hn : a.num.natAbs ≠ 0 := by
    simpa [Int.natAbs_eq_zero] using ha
  have hd : a.den ≠ 0 := a.den_nz
  obtain ⟨n1, n2⟩ := log2_spec _ hn
  obtain ⟨d1, d2⟩ := log2_spec _ hd
  have habs : |a| = (a.num.natAbs : ℚ) / (a.den : ℚ) := by
    conv_lhs => rw [← Rat.num_div_den a]
    rw [abs_div, Nat.cast_natAbs, Int.cast_abs]
    congr 1
    exact abs_of_pos (by exact_mod_cast a.den_pos)
  have hdpos : (0 : ℚ) < a.den := by exact_mod_cast a.den_pos
  have n1q : (2 : ℚ) ^ (log2 a.num.natAbs : ℤ) ≤ a.num.natAbs := by
    rw [zpow_natCast]; exact_mod_cast n1
  have n2q : (a.num.natAbs : ℚ) < 2 ^ ((log2 a.num.natAbs : ℤ) + 1) := by
    have : ((log2 a.num.natAbs : ℤ) + 1) = ((log2 a.num.natAbs + 1 : ℕ) : ℤ) := by push_cast; ring
    rw [this, zpow_natCast]; exact_mod_cast n2
  have d1q : (2 : ℚ) ^ (log2 a.den : ℤ) ≤ a.den := by
    rw [zpow_natCast]; exact_mod_cast d1
  have d2q : (a.den : ℚ) < 2 ^ ((log2 a.den : ℤ) + 1) := by
    have : ((log2 a.den : ℤ) + 1) = ((log2 a.den + 1 : ℕ) : ℤ) := by push_cast; ring
    rw [this, zpow_natCast]; exact_mod_cast d2
  -- bounds on the quotient
  have lo : (2 : ℚ) ^ ((log2 a.num.natAbs : ℤ) - (log2 a.den : ℤ) - 1) < |a| := by
    rw [habs, lt_div_iff₀ hdpos]
    calc (2 : ℚ) ^ ((log2 a.num.natAbs : ℤ) - (log2 a.den : ℤ) - 1) * a.den
        < 2 ^ ((log2 a.num.natAbs : ℤ) - (log2 a.den : ℤ) - 1) * 2 ^ ((log2 a.den : ℤ) + 1) :=
          mul_lt_mul_of_pos_left d2q (two_zpow_pos _)
      _ = 2 ^ (log2 a.num.natAbs : ℤ) := by
          rw [← zpow_add₀ (by norm_num : (2 : ℚ) ≠ 0)]; congr 1; ring
      _ ≤ a.num.natAbs := n1q
  have hi : |a| < (2 : ℚ) ^ ((log2 a.num.natAbs : ℤ) - (log2 a.den : ℤ) + 1) := by
    rw [habs, div_lt_iff₀ hdpos]
    calc (a.num.natAbs : ℚ) < 2 ^ ((log2 a.num.natAbs : ℤ) + 1) := n2q
      _ = 2 ^ ((log2 a.num.natAbs : ℤ) - (log2 a.den : ℤ) + 1) * 2 ^ (log2 a.den : ℤ) := by
          rw [← zpow_add₀ (by norm_num : (2 : ℚ) ≠ 0)]; congr 1; ring
      _ ≤ 2 ^ ((log2 a.num.natAbs : ℤ) - (log2 a.den : ℤ) + 1) * a.den :=
          mul_le_mul_of_nonneg_left d1q (two_zpow_pos _).le
  unfold expo
  simp only
  split_ifs with h
  · exact ⟨h, hi⟩
  · refine ⟨lo.le, ?_⟩
    rw [sub_add_cancel]
    exact not_le.mp h

/-- The binade exponent is determined by the two bounds. -/
theorem expo_eq (a : ℚ) (e : ℤ) (h1 : (2 : ℚ) ^ e ≤ |a|) (h2 : |a| < 2 ^ (e + 1)) :
    expo a = e := by
  have ha : a ≠ 0 := by
    intro h0
    rw [h0, abs_zero] at h1
    exact absurd h1 (not_le.mpr (two_zpow_pos e))
  obtain ⟨s1, s2⟩ := expo_spec a ha
  have l1 : expo a < e + 1 :=
    (zpow_lt_zpow_iff_right₀ (by norm_num : (1 : ℚ) < 2)).mp (lt_of_le_of_lt s1 h2)
  have l2 : e < expo a + 1 :=
    (zpow_lt_zpow_iff_right₀ (by norm_num : (1 : ℚ) < 2)).mp (lt_of_le_of_lt h1 s2)
  omega

theorem expo_neg (a : ℚ) : expo (-a) = expo a := by
  unfold expo
  simp

theorem rne_cases (x : ℚ) : rne x = ⌊x⌋ ∨ rne x = ⌊x⌋ + 1 := by
  unfold rne
  simp only
  split_ifs <;> simp

theorem rne_sub_le (x : ℚ) : |(rne x : ℚ) - x| ≤ 1 / 2 := by
  have h1 := Int.floor_le x
  have h2 := Int.lt_floor_add_one x
  unfold rne
  simp only
  rw [abs_le]
  split_ifs with a b c
  · constructor <;> linarith
  · push_cast; constructor <;> linarith
  · have : x - ⌊x⌋ = 1 / 2 := le_antisymm (not_lt.mp b) (not_lt.mp a)
    constructor <;> linarith
  · have : x - ⌊x⌋ = 1 / 2 := le_antisymm (not_lt.mp b) (not_lt.mp a)
    push_cast; constructor <;> linarith

theorem rne_intCast (n : ℤ) : rne (n : ℚ) = n := by
  unfold rne
  simp

theorem rne_mono {x y : ℚ} (h : x ≤ y) : rne x ≤ rne y := by
  have hf : ⌊x⌋ ≤ ⌊y⌋ := Int.floor_mono h
  rcases lt_or_eq_of_le hf with hlt | heq
  · rcases rne_cases x with hx | hx <;> rcases rne_cases y with hy | hy <;> omega
  · have hfr : x - ⌊x⌋ ≤ y - ⌊y⌋ := by rw [heq]; linarith
    unfold rne
    simp only
    rw [← heq]
    rw [← heq] at hfr
    generalize (⌊x⌋ : ℤ) = f at *
    split_ifs <;> first | omega | (exfalso; linarith)

theorem rne_nonneg {x : ℚ} (h : 0 ≤ x) : 0 ≤ rne x := by
  have := rne_mono h
  rwa [show (0 : ℚ) = ((0 : ℤ) : ℚ) by norm_num, rne_intCast] at this

/-! ### Rounding to a binary format with `p` significant bits -/

theorem ulp_pos (p : ℕ) (emin : ℤ) (a : ℚ) : 0 < ulp p emin a := two_zpow_pos _

theorem ulp_neg (p : ℕ) (emin : ℤ) (a : ℚ) : ulp p emin (-a) = ulp p emin a := by
  unfold ulp
  rw [expo_neg]

theorem mag_zero (p : ℕ) (emin : ℤ) : mag p emin 0 = 0 := by
  unfold mag
  rw [zero_div, show (0 : ℚ) = ((0 : ℤ) : ℚ) by norm_num, rne_intCast]
  simp

theorem mag_nonneg (p : ℕ) (emin : ℤ) {a : ℚ} (h : 0 ≤ a) : 0 ≤ mag p emin a := by
  unfold mag
  have h1 : 0 ≤ rne (a / ulp p emin a) := rne_nonneg (div_nonneg h (ulp_pos p emin a).le)
  exact mul_nonneg (by exact_mod_cast h1) (ulp_pos p emin a).le

theorem mag_err (p : ℕ) (emin : ℤ) (a : ℚ) : |mag p emin a - a| ≤ ulp p emin a / 2 := by
  have hu := ulp_pos p emin a
  have h := rne_sub_le (a / ulp p emin a)
  have e : mag p emin a - a = ((rne (a / ulp p emin a) : ℚ) - a / ulp p emin a) * ulp p emin a := by
    unfold mag
    field_simp
  rw [e, abs_mul, abs_of_pos hu]
  calc |(rne (a / ulp p emin a) : ℚ) - a / ulp p emin a| * ulp p emin a
      ≤ 1 / 2 * ulp p emin a := mul_le_mul_of_nonneg_right h hu.le
    _ = ulp p emin a / 2 := by ring

/-- A multiple of its own unit in the last place is left as it is. -/
theorem mag_of_int_mul (p : ℕ) (emin : ℤ) (r : ℚ) (k : ℤ) (h : r = k * ulp p emin r) :
    mag p emin r = r := by
  have hu := ulp_pos p emin r
  have hq : r / ulp p emin r = k := by
    rw [div_eq_iff hu.ne']
    exact h
  unfold mag
  rw [hq, rne_intCast]
  exact h.symm

theorem two_zpow_natCast (n : ℕ) : (2 : ℚ) ^ (n : ℤ) = ((2 ^ n : ℤ) : ℚ) := by
  rw [zpow_natCast]; push_cast; rfl

theorem mag_le_top (p : ℕ) (emin : ℤ) {a : ℚ} (ha : 0 < a) :
    mag p emin a ≤ 2 ^ (max (expo a) emin + 1) := by
  have hu := ulp_pos p emin a
  obtain ⟨_, s2⟩ := expo_spec a ha.ne'
  rw [abs_of_pos ha] at s2
  have h1 : a ≤ 2 ^ (max (expo a) emin + 1) :=
    le_trans s2.le (two_zpow_le (by have := le_max_left (expo a) emin; omega))
  have e1 : (2 : ℚ) ^ (max (expo a) emin + 1) = ((2 ^ p : ℤ) : ℚ) * ulp p emin a := by
    unfold ulp
    rw [← two_zpow_natCast, ← zpow_add₀ (by norm_num : (2 : ℚ) ≠ 0)]
    congr 1; ring
  have h2 : a / ulp p emin a ≤ ((2 ^ p : ℤ) : ℚ) := by
    rw [div_le_iff₀ hu, ← e1]
    exact h1
  have h3 := rne_mono h2
  rw [rne_intCast] at h3
  unfold mag
  rw [e1]
  exact mul_le_mul_of_nonneg_right (by exact_mod_cast h3) hu.le

theorem mag_ge_bot (p : ℕ) (hp : 1 ≤ p) (emin : ℤ) {a : ℚ} (ha : 0 < a)
    (he : emin ≤ expo a) : 2 ^ expo a ≤ mag p emin a := by
  have hu := ulp_pos p emin a
  obtain ⟨s1, _⟩ := expo_spec a ha.ne'
  rw [abs_of_pos ha] at s1
  have e1 : (2 : ℚ) ^ expo a = ((2 ^ (p - 1) : ℤ) : ℚ) * ulp p emin a := by
    unfold ulp
    rw [max_eq_left he, ← two_zpow_natCast, ← zpow_add₀ (by norm_num : (2 : ℚ) ≠ 0)]
    congr 1
    have : ((p - 1 : ℕ) : ℤ) = (p : ℤ) - 1 := by omega
    rw [this]; ring
  have h2 : ((2 ^ (p - 1) : ℤ) : ℚ) ≤ a / ulp p emin a := by
    rw [le_div_iff₀ hu, ← e1]
    exact s1
  have h3 := rne_mono h2
  rw [rne_intCast] at h3
  unfold mag
  rw [e1]
  exact mul_le_mul_of_nonneg_right (by exact_mod_cast h3) hu.le

theorem mag_idem (p : ℕ) (hp : 1 ≤ p) (emin : ℤ) {a : ℚ} (ha : 0 ≤ a) :
    mag p emin (mag p emin a) = mag p emin a := by
  rcases eq_or_lt_of_le ha with h0 | hpos
  · rw [← h0, mag_zero, mag_zero]
  rcases eq_or_lt_of_le (mag_nonneg p emin ha) with hr0 | hrpos
  · rw [← hr0, mag_zero]
  have htop := mag_le_top p emin hpos
  rcases eq_or_lt_of_le htop with heq | hlt
  · -- the result is a power of two
    have hex : expo (mag p emin a) = max (expo a) emin + 1 := by
      apply expo_eq
      · rw [abs_of_pos hrpos, heq]
      · rw [abs_of_pos hrpos, heq]
        exact two_zpow_lt (by omega)
    apply mag_of_int_mul p emin _ (2 ^ (p - 1) : ℤ)
    unfold ulp
    rw [hex, max_eq_left (by have := le_max_right (expo a) emin; omega), ← two_zpow_natCast,
      ← zpow_add₀ (by norm_num : (2 : ℚ) ≠ 0)]
    rw [heq]
    congr 1
    have : ((p - 1 : ℕ) : ℤ) = (p : ℤ) - 1 := by omega
    rw [this]; ring
  · -- the result stays in the binade, with the same unit in the last place
    have hex1 : expo (mag p emin a) ≤ max (expo a) emin := by
      obtain ⟨s1, _⟩ := expo_spec _ hrpos.ne'
      rw [abs_of_pos hrpos] at s1
      have := (zpow_lt_zpow_iff_right₀ (by norm_num : (1 : ℚ) < 2)).mp (lt_of_le_of_lt s1 hlt)
      omega
    have hmax : max (expo (mag p emin a)) emin = max (expo a) emin := by
      rcases le_total emin (expo a) with h | h
      · have hge := mag_ge_bot p hp emin hpos h
        have : expo a ≤ expo (mag p emin a) := by
          obtain ⟨_, s2⟩ := expo_spec _ hrpos.ne'
          rw [abs_of_pos hrpos] at s2
          have := (zpow_lt_zpow_iff_right₀ (by norm_num : (1 : ℚ) < 2)).mp
            (lt_of_le_of_lt hge s2)
          omega
        rw [max_eq_left h] at hex1 ⊢
        rw [max_eq_left (by omega)]
        omega
      · rw [max_eq_right h] at hex1 ⊢
        exact max_eq_right hex1
    have hu : ulp p emin (mag p emin a) = ulp p emin a := by unfold ulp; rw [hmax]
    apply mag_of_int_mul p emin _ (rne (a / ulp p emin a))
    rw [hu]
    rfl

theorem roundQ_zero (p : ℕ) (emin : ℤ) : roundQ p emin 0 = 0 := by
  unfold roundQ
  simp [mag_zero]

theorem roundQ_of_nonneg (p : ℕ) (emin : ℤ) {a : ℚ} (h : 0 ≤ a) :
    roundQ p emin a = mag p emin a := by
  unfold roundQ
  rw [if_neg (not_lt.mpr h)]

theorem roundQ_of_neg (p : ℕ) (emin : ℤ) {a : ℚ} (h : a < 0) :
    roundQ p emin a = -mag p emin (-a) := by
  unfold roundQ
  rw [if_pos h]

theorem roundQ_idem (p : ℕ) (hp : 1 ≤ p) (emin : ℤ) (a : ℚ) :
    roundQ p emin (roundQ p emin a) = roundQ p emin a := by
  rcases lt_or_le a 0 with ha | ha
  · have hm := mag_nonneg p emin (by linarith : (0 : ℚ) ≤ -a)
    rw [roundQ_of_neg p emin ha]
    rcases eq_or_lt_of_le hm with h0 | hpos
    · rw [← h0]; simp [roundQ_zero]
    · rw [roundQ_of_neg p emin (by linarith), neg_neg,
        mag_idem p hp emin (by linarith : (0 : ℚ) ≤ -a)]
  · rw [roundQ_of_nonneg p emin ha, roundQ_of_nonneg p emin (mag_nonneg p emin ha),
      mag_idem p hp emin ha]

theorem roundQ_err (p : ℕ) (emin : ℤ) (a : ℚ) :
    |roundQ p emin a - a| ≤ ulp p emin a / 2 := by
  rcases lt_or_le a 0 with ha | ha
  · rw [roundQ_of_neg p emin ha]
    have := mag_err p emin (-a)
    rw [ulp_neg] at this
    rw [show -mag p emin (-a) - a = -(mag p emin (-a) - -a) by ring, abs_neg]
    exact this
  · rw [roundQ_of_nonneg p emin ha]
    exact mag_err p emin a

end Bin

/-! ## Lemmas on binary32 -/

namespace F32

open Flt KalmanFilter

theorem rq_idem (a : ℚ) : rq (rq a) = rq a := Bin.roundQ_idem 24 (by norm_num) (-126) a

theorem round_of_lt {a : ℚ} (h : |rq a| < 2 ^ (128 : ℤ)) :
    Bin.round 24 (-126) 128 a = fin (rq a) := by
  unfold Bin.round
  rw [if_neg (not_le.mpr (show |Bin.roundQ 24 (-126) a| < (2 : ℚ) ^ (128 : ℤ) from h))]
  rfl

theorem isF32_of_round {a b : ℚ} (h : Bin.round 24 (-126) 128 a = fin b) : IsF32 b := by
  unfold Bin.round at h
  split_ifs at h with hc
  have hb : rq a = b := Flt.fin.inj h
  have hi : rq b = b := by rw [← hb]; exact rq_idem a
  unfold IsF32
  rw [round_of_lt (by rw [hi, ← hb]; exact not_le.mp hc), hi]

theorem add_val (a b : F32) : (a + b).val = Bin.rnd 24 (-126) 128 (Flt.add a.val b.val) := rfl

theorem sub_val (a b : F32) : (a - b).val = Bin.rnd 24 (-126) 128 (Flt.sub a.val b.val) := rfl

theorem mul_val (a b : F32) : (a * b).val = Bin.rnd 24 (-126) 128 (Flt.mul a.val b.val) := rfl

theorem div_val (a b : F32) : (a / b).val = Bin.rnd 24 (-126) 128 (Flt.div a.val b.val) := rfl

theorem update_K_eq (s : KalmanFilter F32) (m : F32) :
    (update s m).1.K = (s.P + s.Q) / (s.P + s.Q + s.R) := rfl

theorem update_P_eq (s : KalmanFilter F32) (m : F32) :
    (update s m).1.P = (1 - (update s m).1.K) * (s.P + s.Q) := rfl

theorem update_X_eq (s : KalmanFilter F32) (m : F32) :
    (update s m).1.X = s.X + (update s m).1.K * (m - s.X) := rfl

/-- The rounding error of binary32: relative `2^-24`, absolute `2^-150` below the normal
range. -/
theorem rq_err (a : ℚ) : |rq a - a| ≤ |a| / 2 ^ 24 + 1 / 2 ^ 150 := by
  rcases eq_or_ne a 0 with h0 | hne
  · rw [h0]
    have : rq 0 = 0 := Bin.roundQ_zero 24 (-126)
    rw [this]; norm_num
  have h := Bin.roundQ_err 24 (-126) a
  refine le_trans h ?_
  obtain ⟨s1, _⟩ := Bin.expo_spec a hne
  have e : Bin.ulp 24 (-126) a / 2 = 2 ^ (max (Bin.expo a) (-126) - 24) := by
    unfold Bin.ulp
    rw [show max (Bin.expo a) (-126) - ((24 : ℕ) - 1 : ℤ) =
      (max (Bin.expo a) (-126) - 24) + 1 by push_cast; ring, Bin.two_zpow_succ]
    ring
  rw [e]
  rcases le_total (-126) (Bin.expo a) with hle | hle
  · rw [max_eq_left hle, zpow_sub₀ (by norm_num : (2 : ℚ) ≠ 0)]
    have : (2 : ℚ) ^ (24 : ℤ) = 2 ^ 24 := by norm_num
    rw [this]
    have h2 : (2 : ℚ) ^ Bin.expo a / 2 ^ 24 ≤ |a| / 2 ^ 24 :=
      div_le_div_of_nonneg_right s1 (by norm_num)
    have : (0 : ℚ) ≤ 1 / 2 ^ 150 := by norm_num
    linarith
  · rw [max_eq_right hle]
    have : (2 : ℚ) ^ ((-126 : ℤ) - 24) = 1 / 2 ^ 150 := by
      rw [show ((-126 : ℤ) - 24) = -(150 : ℕ) by norm_num, zpow_neg, zpow_natCast]
      norm_num
    rw [this]
    have : 0 ≤ |a| / 2 ^ 24 := div_nonneg (abs_nonneg a) (by norm_num)
    linarith

/-- The error of one correction step in binary32, for a gain in `[0.27, 1]`. -/
theorem corr_err (x k μ E : ℚ) (hk0 : 27 / 100 ≤ k) (hk1 : k ≤ 1) (hμ : |μ| ≤ 25000)
    (hE : |x - μ| ≤ E) (hEB : E ≤ 25000) :
    |rq (μ + -x)| < 2 ^ (128 : ℤ) ∧ |rq (k * rq (μ + -x))| < 2 ^ (128 : ℤ) ∧
    |rq (x + rq (k * rq (μ + -x)))| < 2 ^ (128 : ℤ) ∧
    |rq (x + rq (k * rq (μ + -x))) - μ| ≤ 7301 / 10000 * E + 25000 / 2 ^ 24 + 4 / 2 ^ 150 := by
  have hE0 : 0 ≤ E := le_trans (abs_nonneg _) hE
  have hk : |k| = k := abs_of_nonneg (by linarith)
  -- the three rounding errors
  have r1 := rq_err (μ + -x)
  have r2 := rq_err (k * rq (μ + -x))
  have r3 := rq_err (x + rq (k * rq (μ + -x)))
  have hdx : |μ + -x| ≤ E := by
    rw [show μ + -x = -(x - μ) by ring, abs_neg]; exact hE
  set d := rq (μ + -x) with hd
  set e := rq (k * d) with he
  set y := rq (x + e) with hy
  have hx : |x| ≤ 25000 + E := by
    calc |x| = |(x - μ) + μ| := by ring_nf
      _ ≤ |x - μ| + |μ| := abs_add _ _
      _ ≤ 25000 + E := by linarith
  have a1 : |d| ≤ |μ + -x| + |d - (μ + -x)| := by
    calc |d| = |(μ + -x) + (d - (μ + -x))| := by ring_nf
      _ ≤ _ := abs_add _ _
  have hkd : |k * d| ≤ |d| := by
    rw [abs_mul, hk]
    exact mul_le_of_le_one_left (abs_nonneg d) hk1
  have a2 : |e| ≤ |k * d| + |e - k * d| := by
    calc |e| = |k * d + (e - k * d)| := by ring_nf
      _ ≤ _ := abs_add _ _
  have a3 : |x + e| ≤ |x| + |e| := abs_add _ _
  have a4 : |y| ≤ |x + e| + |y - (x + e)| := by
    calc |y| = |(x + e) + (y - (x + e))| := by ring_nf
      _ ≤ _ := abs_add _ _
  have t1 : |k * (d - (μ + -x))| ≤ |d - (μ + -x)| := by
    rw [abs_mul, hk]
    exact mul_le_of_le_one_left (abs_nonneg _) hk1
  have t2 : |(1 - k) * (x - μ)| ≤ 73 / 100 * E := by
    rw [abs_mul, abs_of_nonneg (by linarith : (0 : ℚ) ≤ 1 - k)]
    exact mul_le_mul (by linarith) hE (abs_nonneg _) (by norm_num)
  have t3 : |y - μ| ≤ |y - (x + e)| + |e - k * d| + |k * (d - (μ + -x))| +
      |(1 - k) * (x - μ)| := by
    calc |y - μ| = |(y - (x + e)) + (e - k * d) + k * (d - (μ + -x)) + (1 - k) * (x - μ)| := by
          ring_nf
      _ ≤ |(y - (x + e)) + (e - k * d) + k * (d - (μ + -x))| + |(1 - k) * (x - μ)| :=
          abs_add _ _
      _ ≤ |(y - (x + e)) + (e - k * d)| + |k * (d - (μ + -x))| + |(1 - k) * (x - μ)| := by
          linarith [abs_add ((y - (x + e)) + (e - k * d)) (k * (d - (μ + -x)))]
      _ ≤ _ := by linarith [abs_add (y - (x + e)) (e - k * d)]
  have hbig : (200000 : ℚ) < 2 ^ (128 : ℤ) := by norm_num
  have n1 : (0 : ℚ) ≤ |μ + -x| := abs_nonneg _
  have n2 : (0 : ℚ) ≤ |d| := abs_nonneg _
  have n3 : (0 : ℚ) ≤ |e| := abs_nonneg _
  have n4 : (0 : ℚ) ≤ |x + e| := abs_nonneg _
  have n5 : (0 : ℚ) ≤ |k * d| := abs_nonneg _
  refine ⟨?_, ?_, ?_, ?_⟩
  · refine lt_trans ?_ hbig
    linarith
  · refine lt_trans ?_ hbig
    linarith
  · refine lt_trans ?_ hbig
    linarith
  · linarith

theorem feed_succ_front (s : KalmanFilter F32) (m : F32) (n : Nat) :
    feed s m (n + 1) = feed (update s m).1 m n := by
  induction n with
  | zero => rfl
  | succ n ih => rw [feed, ih]; rfl

/-- The fields `Q`, `R`, `P` and `K` after `n` calls do not depend on the measurement. -/
theorem feed_indep (s : KalmanFilter F32) (m m2 : F32) (n : Nat) :
    (feed s m n).Q = (feed s m2 n).Q ∧ (feed s m n).R = (feed s m2 n).R ∧
    (feed s m n).P = (feed s m2 n).P ∧ (feed s m n).K = (feed s m2 n).K := by
  induction n with
  | zero => exact ⟨rfl, rfl, rfl, rfl⟩
  | succ n ih =>
    obtain ⟨hQ, hR, hP, _⟩ := ih
    have eK : (feed s m (n + 1)).K = (feed s m2 (n + 1)).K := by
      show (update (feed s m n) m).1.K = (update (feed s m2 n) m2).1.K
      rw [update_K_eq, update_K_eq, hQ, hR, hP]
    refine ⟨hQ, hR, ?_, eK⟩
    show (update (feed s m n) m).1.P = (update (feed s m2 n) m2).1.P
    rw [update_P_eq, update_P_eq, hQ, hP]
    rw [show (update (feed s m n) m).1.K = (update (feed s m2 n) m2).1.K from eK]

theorem gainsOK_spec (n : Nat) : ∀ s : KalmanFilter F32, gainsOK n s = true →
    ∀ i, i < n → ∃ k, (feed s (lit 0) (i + 1)).K.val = fin k ∧ 27 / 100 ≤ k ∧ k ≤ 1 := by
  induction n with
  | zero => intro s _ i hi; omega
  | succ n ih =>
    intro s h i hi
    unfold gainsOK at h
    rw [Bool.and_eq_true] at h
    obtain ⟨h1, h2⟩ := h
    rw [feed_succ_front]
    cases i with
    | zero =>
      show ∃ k, (update s (lit 0)).1.K.val = fin k ∧ _
      revert h1
      cases (update s (lit 0)).1.K.val with
      | fin k => intro h1; exact ⟨k, rfl, of_decide_eq_true h1⟩
      | inf b => intro h1; cases h1
      | nan => intro h1; cases h1
    | succ j => exact ih _ h2 j (by omega)

theorem gainsOK_setup : gainsOK 50 kalmanFilterAfterSetup = true := by decide!

theorem errB_le (n : Nat) : errB n ≤ 25000 := by
  induction n with
  | zero => exact le_refl _
  | succ n ih =>
    unfold errB
    have : (25000 : ℚ) / 2 ^ 24 + 4 / 2 ^ 150 ≤ 2699 / 10000 * 25000 := by norm_num
    linarith

/-- The estimate after `n ≤ 50` calls `update(m)` from the state `setup()` leaves, for a
binary32 `m` with `|m| ≤ 25000`. -/
theorem feed_err (m : F32) (μ : ℚ) (hm : m.val = fin μ) (hμ : |μ| ≤ 25000) (n : Nat)
    (hn : n ≤ 50) :
    ∃ x, (feed kalmanFilterAfterSetup m n).X.val = fin x ∧ |x - μ| ≤ errB n := by
  induction n with
  | zero =>
    refine ⟨0, (show kalmanFilterAfterSetup.X.val = fin 0 by decide!), ?_⟩
    simpa [errB] using hμ
  | succ n ih =>
    obtain ⟨x, hx, hE⟩ := ih (by omega)
    obtain ⟨k, hk, k0, k1⟩ := gainsOK_spec 50 _ gainsOK_setup n (by omega)
    rw [← (feed_indep kalmanFilterAfterSetup m (lit 0) (n + 1)).2.2.2] at hk
    have hk2 : (update (feed kalmanFilterAfterSetup m n) m).1.K.val = fin k := hk
    obtain ⟨b1, b2, b3, b4⟩ := corr_err x k μ (errB n) k0 k1 hμ hE (errB_le n)
    refine ⟨rq (x + rq (k * rq (μ + -x))), ?_, b4⟩
    show (update (feed kalmanFilterAfterSetup m n) m).1.X.val = _
    rw [update_X_eq, add_val, mul_val, sub_val, hk2, hx, hm]
    simp only [Flt.sub, Flt.neg, Flt.add, Bin.rnd, Flt.mul, round_of_lt b1, round_of_lt b2,
      round_of_lt b3]

theorem errB_fifty : errB 50 < 1 / 100 := by
  simp only [errB]
  norm_num

end F32

/-! ## Lemmas on the carrier `Flt` -/

namespace Flt

theorem add_not_finite (a b : Flt) (hb : b.isFinite = false) :
    (add a b).isFinite = false := by
  cases a <;> cases b <;> simp_all [add, isFinite]
  split_ifs <;> rfl

theorem sub_not_finite (a b : Flt) (ha : a.isFinite = false) :
    (sub a b).isFinite = false := by
  cases a <;> cases b <;> simp_all [sub, add, neg, isFinite]
  split_ifs <;> rfl

theorem mul_not_finite (a b : Flt) (hb : b.isFinite = false) :
    (mul a b).isFinite = false := by
  cases a <;> cases b <;> simp_all [mul, isFinite]
  split_ifs <;> rfl

/-- A non-finite measurement makes `X + K * (m - X)` non-finite, whatever `X` and `K`. -/
theorem correct_not_finite (X K m : Flt) (hm : m.isFinite = false) :
    (X + K * (m - X)).isFinite = false :=
  add_not_finite X _ (mul_not_finite K _ (sub_not_finite m X hm))

/-- A NaN measurement makes `X + K * (m - X)` NaN. -/
theorem correct_nan (X K : Flt) : X + K * (nan - X) = nan := by
  show add X (mul K (sub nan X)) = nan
  cases X <;> cases K <;> simp [add, mul, sub, neg]

end Flt

/-! ## Lemmas on `loop` -/

open KalmanFilter

theorem loop_fire (render : ℚ → String) (sinF : ℚ → ℚ) (st : LoopState) (i : TickInput)
    (h : UPDATE_INTERVAL ≤ elapsed (millis i.uptime0) st.lastUpdate) :
    loop render sinF st i =
      ({ lastUpdate := millis i.uptime1,
         kalmanFilter :=
          (update st.kalmanFilter
            (noisy_measurement (true_value sinF (millis i.uptime2)) i.rnd)).1 },
        [Event.millis (millis i.uptime0), Event.millis (millis i.uptime1),
          Event.millis (millis i.uptime2), Event.random i.rnd,
          Event.update (noisy_measurement (true_value sinF (millis i.uptime2)) i.rnd),
          Event.textAll (jsonString render (true_value sinF (millis i.uptime2))
            (noisy_measurement (true_value sinF (millis i.uptime2)) i.rnd)
            (update st.kalmanFilter
              (noisy_measurement (true_value sinF (millis i.uptime2)) i.rnd)).2),
          Event.printf (true_value sinF (millis i.uptime2))
            (noisy_measurement (true_value sinF (millis i.uptime2)) i.rnd)
            (update st.kalmanFilter
              (noisy_measurement (true_value sinF (millis i.uptime2)) i.rnd)).2]) := by
  unfold loop
  rw [if_pos h]

theorem loop_idle (render : ℚ → String) (sinF : ℚ → ℚ) (st : LoopState) (i : TickInput)
    (h : ¬ UPDATE_INTERVAL ≤ elapsed (millis i.uptime0) st.lastUpdate) :
    loop render sinF st i = (st, [Event.millis (millis i.uptime0)]) := by
  unfold loop
  rw [if_neg h]

theorem broadcasts_append (es fs : List Event) :
    broadcasts (es ++ fs) = broadcasts es ++ broadcasts fs := by
  induction es with
  | nil => rfl
  | cons e es ih => cases e <;> simp [broadcasts, ih]

/-- Iterations that broadcast nothing leave the state as it was. -/
theorem loops_silent (render : ℚ → String) (sinF : ℚ → ℚ) (is : List TickInput) :
    ∀ st : LoopState, broadcasts (loops render sinF st is).2 = [] →
      (loops render sinF st is).1 = st := by
  induction is with
  | nil => intro st _; rfl
  | cons i is ih =>
    intro st h
    simp only [loops, broadcasts_append, List.append_eq_nil] at h
    by_cases hc : UPDATE_INTERVAL ≤ elapsed (millis i.uptime0) st.lastUpdate
    · rw [loop_fire render sinF st i hc] at h
      simp [broadcasts] at h
    · have hi := loop_idle render sinF st i hc
      simp only [loops]
      rw [hi] at h ⊢
      exact ih st h.2

/-! ## The filter in binary32: C1 to C6 -/

/-- C1 fails as stated: with `P = 1`, `Q = 2^-25`, `R = -1` (all binary32, `P + Q + R ≠ 0`)
`update(5)` does not set `K` to the quotient `(P + Q) / (P + Q + R) = 33554433`: the sum
`P + Q` rounds to `1`, `P1 + R` is `0`, and `K = +∞`, `X = +∞`, `P = -∞`.  On the state
`setup()` leaves, `K` is not the exact quotient of the stored values either. -/
theorem update_quotient_not_exact :
    F32.cancelState.P.val = Flt.fin 1 ∧ F32.cancelState.Q.val = Flt.fin (1 / 2 ^ 25) ∧
    F32.cancelState.R.val = Flt.fin (-1) ∧ (1 : ℚ) + 1 / 2 ^ 25 + -1 ≠ 0 ∧
    ((1 : ℚ) + 1 / 2 ^ 25) / (1 + 1 / 2 ^ 25 + -1) = 33554433 ∧
    (update F32.cancelState (F32.ofRat 5)).1.K.val = Flt.inf false ∧
    (update F32.cancelState (F32.ofRat 5)).1.X.val = Flt.inf false ∧
    (update F32.cancelState (F32.ofRat 5)).1.P.val = Flt.inf true ∧
    F32.kalmanFilterAfterSetup.Q.val = Flt.fin (13421773 / 134217728) ∧
    (update F32.kalmanFilterAfterSetup (F32.lit 1)).1.K.val ≠
      Flt.fin (((1 : ℚ) + 13421773 / 134217728) / (1 + 13421773 / 134217728 + 1)) := by
  decide!

/-- C1 amended: for every binary32 filter state and every binary32 measurement `m`, with
no condition on `P + Q + R`, `update(m)` leaves `Q` and `R` unchanged and sets, every
operation being the binary32 operation (the exact result rounded to nearest, ties to
even, with the IEEE infinities and NaN), `P1 = P + Q`, `K' = P1 / (P1 + R)`,
`X' = X + K' * (m - X)` and `P' = (1 - K') * P1`; the value returned is the new `X'`.
When `P1`, `P1 + R ≠ 0` and `K'` are finite, `K'` differs from the real quotient of `P1`
by `P1 + R` by at most `2^-24` of its size plus `2^-150`. -/
theorem update_spec_binary32 (s : KalmanFilter F32) (m : F32) :
    (update s m).1.Q = s.Q ∧ (update s m).1.R = s.R ∧
    (update s m).1.K = (s.P + s.Q) / (s.P + s.Q + s.R) ∧
    (update s m).1.X = s.X + (update s m).1.K * (m - s.X) ∧
    (update s m).1.P = (1 - (update s m).1.K) * (s.P + s.Q) ∧
    (update s m).2 = (update s m).1.X ∧
    ∀ p1 d k : ℚ, (s.P + s.Q).val = Flt.fin p1 → (s.P + s.Q + s.R).val = Flt.fin d →
      d ≠ 0 → (update s m).1.K.val = Flt.fin k →
      |k - p1 / d| ≤ |p1 / d| / 2 ^ 24 + 1 / 2 ^ 150 := by
  refine ⟨rfl, rfl, rfl, rfl, rfl, rfl, ?_⟩
  intro p1 d k h1 hd hd0 hk
  rw [F32.update_K_eq, F32.div_val, h1, hd] at hk
  simp only [Flt.div, Bin.rnd, if_neg hd0] at hk
  have hF := F32.isF32_of_round hk
  unfold Bin.round at hk
  split_ifs at hk
  have e : F32.rq (p1 / d) = k := Flt.fin.inj hk
  rw [← e]
  exact F32.rq_err (p1 / d)

/-- Witness of C1 amended on the state `setup()` leaves and the measurement `1`. -/
theorem update_spec_binary32_witness :
    (F32.kalmanFilterAfterSetup.P + F32.kalmanFilterAfterSetup.Q).val =
      Flt.fin (9227469 / 8388608) ∧
    (F32.kalmanFilterAfterSetup.P + F32.kalmanFilterAfterSetup.Q +
      F32.kalmanFilterAfterSetup.R).val = Flt.fin (4404019 / 2097152) ∧
    (update F32.kalmanFilterAfterSetup (F32.lit 1)).1.K.val = Flt.fin (4394033 / 8388608) ∧
    |(4394033 / 8388608 : ℚ) - 9227469 / 8388608 / (4404019 / 2097152)| ≤
      |(9227469 / 8388608 : ℚ) / (4404019 / 2097152)| / 2 ^ 24 + 1 / 2 ^ 150 :=
  ⟨by decide!, by decide!, by decide!,
    (update_spec_binary32 F32.kalmanFilterAfterSetup (F32.lit 1)).2.2.2.2.2.2
      (9227469 / 8388608) (4404019 / 2097152) (4394033 / 8388608) (by decide!) (by decide!)
      (by decide!) (by decide!)⟩

/-- C4 fails as stated: with `Q = 0.1`, `R = 1.0` and the default state, after 50 calls
`update(m)` the estimate is `999999.9375` for `m = 1000000` and `131072.984375` for
`m = 131073`: the error is `0.0625`, resp. `0.015625`, not below `0.01`. -/
theorem fifty_updates_large_m_not_close :
    (F32.lit 1000000).val = Flt.fin 1000000 ∧
    (feed F32.kalmanFilterAfterSetup (F32.lit 1000000) 50).X.val =
      Flt.fin (15999999 / 16) ∧
    ¬ |(15999999 / 16 : ℚ) - 1000000| < 1 / 100 ∧
    (F32.lit 131073).val = Flt.fin 131073 ∧
    (feed F32.kalmanFilterAfterSetup (F32.lit 131073) 50).X.val = Flt.fin (8388671 / 64) ∧
    ¬ |(8388671 / 64 : ℚ) - 131073| < 1 / 100 := by
  decide!

/-- C4 amended: with `Q = 0.1` and `R = 1.0` and the default initial state (`P = 1`,
`X = 0`, `K = 0`), for every constant binary32 measurement `m` with `|m| ≤ 25000`, after
50 consecutive calls `update(m)` the estimate is finite and `|X - m| < 0.01`. -/
theorem fifty_updates_close (m : F32) (μ : ℚ) (hm : m.val = Flt.fin μ)
    (hμ : |μ| ≤ 25000) :
    ∃ x, (feed F32.kalmanFilterAfterSetup m 50).X.val = Flt.fin x ∧ |x - μ| < 1 / 100 := by
  obtain ⟨x, hx, hE⟩ := F32.feed_err m μ hm hμ 50 le_rfl
  exact ⟨x, hx, lt_of_le_of_lt hE F32.errB_fifty⟩

/-- Witness of C4 amended at `m = 10`, the amplitude of the sampled signal. -/
theorem fifty_updates_close_witness :
    (F32.lit 10).val = Flt.fin 10 ∧ |(10 : ℚ)| ≤ 25000 ∧
    ∃ x, (feed F32.kalmanFilterAfterSetup (F32.lit 10) 50).X.val = Flt.fin x ∧
      |x - 10| < 1 / 100 :=
  ⟨by decide!, by decide!, fifty_updates_close (F32.lit 10) 10 (by decide!) (by decide!)⟩

/-- C5 fails as stated: in binary32 the stored `Q` is not `1/10`, the predicted error is
not `11/10`, and after `update(1.0)` the returned `X` and `K` are `4394033/8388608`, not
`11/21`, while `P = 8788065/16777216` differs from both. -/
theorem first_update_not_exact :
    F32.kalmanFilter.Q.val ≠ Flt.fin (1 / 10) ∧
    (F32.kalmanFilterAfterSetup.P + F32.kalmanFilterAfterSetup.Q).val ≠ Flt.fin (11 / 10) ∧
    (update F32.kalmanFilterAfterSetup (F32.lit 1)).2.val ≠ Flt.fin (11 / 21) ∧
    (update F32.kalmanFilterAfterSetup (F32.lit 1)).1.K.val ≠ Flt.fin (11 / 21) ∧
    (update F32.kalmanFilterAfterSetup (F32.lit 1)).1.P.val ≠ Flt.fin (11 / 21) ∧
    (update F32.kalmanFilterAfterSetup (F32.lit 1)).1.P ≠
      (update F32.kalmanFilterAfterSetup (F32.lit 1)).1.K := by
  decide!

/-- C5 amended: a freshly constructed filter has `P = 1`, `X = 0`, `K = 0`, `R = 1` and
`Q` the binary32 value nearest `0.1` (`13421773/134217728`), also after
`setParameters(0.1, 1.0)`; from that state the predicted error `P + Q` is
`9227469/8388608` (`1.1` to four decimals) and a single `update(1.0)` returns
`X = 4394033/8388608` and leaves `K = 4394033/8388608` and `P = 8788065/16777216`, each
`0.5238` to four decimal places. -/
theorem first_update_scenario :
    F32.kalmanFilter.P.val = Flt.fin 1 ∧ F32.kalmanFilter.X.val = Flt.fin 0 ∧
    F32.kalmanFilter.K.val = Flt.fin 0 ∧ F32.kalmanFilter.R.val = Flt.fin 1 ∧
    F32.kalmanFilter.Q.val = Flt.fin (13421773 / 134217728) ∧
    F32.kalmanFilter.setParameters (F32.lit (1 / 10)) (F32.lit 1) = F32.kalmanFilter ∧
    (F32.kalmanFilterAfterSetup.P + F32.kalmanFilterAfterSetup.Q).val =
      Flt.fin (9227469 / 8388608) ∧
    roundDec 4 (9227469 / 8388608) = 11 / 10 ∧
    (update F32.kalmanFilterAfterSetup (F32.lit 1)).2.val = Flt.fin (4394033 / 8388608) ∧
    (update F32.kalmanFilterAfterSetup (F32.lit 1)).1.X.val =
      Flt.fin (4394033 / 8388608) ∧
    (update F32.kalmanFilterAfterSetup (F32.lit 1)).1.K.val =
      Flt.fin (4394033 / 8388608) ∧
    (update F32.kalmanFilterAfterSetup (F32.lit 1)).1.P.val =
      Flt.fin (8788065 / 16777216) ∧
    roundDec 4 (4394033 / 8388608) = 5238 / 10000 ∧
    roundDec 4 (8788065 / 16777216) = 5238 / 10000 := by
  decide!

/-- C6 fails as stated: after two calls `update(1.0)` from the default state the value
returned is `2964303/4194304 = 0.70674...`, which is `0.707` and not `0.786` to three
decimal places. -/
theorem second_update_not_0786 :
    (update (update F32.kalmanFilterAfterSetup (F32.lit 1)).1 (F32.lit 1)).2.val =
      Flt.fin (2964303 / 4194304) ∧
    roundDec 3 (2964303 / 4194304) ≠ 786 / 1000 ∧
    ¬ |(2964303 / 4194304 : ℚ) - 786 / 1000| < 5 / 100 := by
  decide!

/-- C6 amended: with `Q = 0.1`, `R = 1.0` and the default initial state, after a first
`update(1.0)` a second `update(1.0)` returns an `X` that is closer to `1.0` than the
first result and is approximately `0.707` (equal to `0.707` when rounded to three
decimal places). -/
theorem second_update_scenario :
    (update F32.kalmanFilterAfterSetup (F32.lit 1)).2.val = Flt.fin (4394033 / 8388608) ∧
    (update (update F32.kalmanFilterAfterSetup (F32.lit 1)).1 (F32.lit 1)).2.val =
      Flt.fin (2964303 / 4194304) ∧
    |(2964303 / 4194304 : ℚ) - 1| < |(4394033 / 8388608 : ℚ) - 1| ∧
    roundDec 3 (2964303 / 4194304) = 707 / 1000 := by
  decide!

/-! ## Configuration and non-finite measurements: C7 and C8 -/

/-- C7 fails as stated: `setParameters(0.1, 0)` and `setParameters(0.1, -1)` on the
default filter do not leave it as it was; they store the non-positive `R`. -/
theorem setParameters_nonpositive_R_stored :
    (kalmanFilter.setParameters (1 / 10) 0).R = 0 ∧
    kalmanFilter.setParameters (1 / 10) 0 ≠ kalmanFilter ∧
    (kalmanFilter.setParameters (1 / 10) (-1)).R = -1 ∧
    kalmanFilter.setParameters (1 / 10) (-1) ≠ kalmanFilter := by
  decide!

/-- C7 amended: `setParameters` has no failure path and checks nothing: for every
`process_noise` and every `measurement_noise`, also zero or negative, it stores them
in `Q` and `R` and leaves `P`, `K` and `X` as they were. -/
theorem setParameters_spec (s : KalmanFilter ℚ) (process_noise measurement_noise : ℚ) :
    s.setParameters process_noise measurement_noise =
      { Q := process_noise, R := measurement_noise, P := s.P, K := s.K, X := s.X } := by
  rfl

/-- C8 fails as stated: on the state `setup()` leaves, `update(NaN)` and `update(+∞)`
return a value (NaN, resp. `+∞`) and change `X`, `K` and `P`. -/
theorem update_nonfinite_mutates :
    (update kalmanFilterAfterSetup.toFlt Flt.nan).2 = Flt.nan ∧
    (update kalmanFilterAfterSetup.toFlt Flt.nan).1.X ≠ kalmanFilterAfterSetup.toFlt.X ∧
    (update kalmanFilterAfterSetup.toFlt Flt.nan).1.K ≠ kalmanFilterAfterSetup.toFlt.K ∧
    (update kalmanFilterAfterSetup.toFlt Flt.nan).1.P ≠ kalmanFilterAfterSetup.toFlt.P ∧
    (update kalmanFilterAfterSetup.toFlt (Flt.inf false)).2 = Flt.inf false ∧
    (update kalmanFilterAfterSetup.toFlt (Flt.inf false)).1.X ≠
      kalmanFilterAfterSetup.toFlt.X := by
  decide!

/-- C8 amended: `update` has no failure path and does not inspect its measurement.
Called with a non-finite measurement (NaN or an infinity) it returns a non-finite
value (NaN for NaN), stores that value in `X`, leaves `Q` and `R` unchanged and sets
`P` and `K` to what any other measurement would have given. -/
theorem update_nonfinite_spec (s : KalmanFilter Flt) (m : Flt)
    (hm : m.isFinite = false) :
    (update s m).2.isFinite = false ∧ (update s m).1.X = (update s m).2 ∧
    (m = Flt.nan → (update s m).2 = Flt.nan) ∧
    (update s m).1.Q = s.Q ∧ (update s m).1.R = s.R ∧
    ∀ m2 : Flt, (update s m).1.P = (update s m2).1.P ∧
      (update s m).1.K = (update s m2).1.K := by
  refine ⟨Flt.correct_not_finite _ _ _ hm, rfl, ?_, rfl, rfl, fun _ => ⟨rfl, rfl⟩⟩
  intro h
  subst h
  exact Flt.correct_nan _ _

/-- Witness of C8 amended: the state `setup()` leaves and the measurement `-∞`. -/
theorem update_nonfinite_spec_witness :
    (Flt.inf true).isFinite = false ∧
    (update kalmanFilterAfterSetup.toFlt (Flt.inf true)).2.isFinite = false ∧
    (update kalmanFilterAfterSetup.toFlt (Flt.inf true)).1.X =
      (update kalmanFilterAfterSetup.toFlt (Flt.inf true)).2 :=
  have h := update_nonfinite_spec kalmanFilterAfterSetup.toFlt (Flt.inf true) rfl
  ⟨rfl, h.1, h.2.1⟩

/-! ## The sampling loop: C9 and C10 -/

/-- C9: on every iteration of `loop()` that fires, exactly one text is handed to
`ws.textAll`, and it is `{"true":` f(t) `,"noisy":` f(n) `,"filtered":` f(x) `}` with
`f = String(·, 3)`, `t` the true value, `n` the noisy measurement and `x` the value
returned by `update(n)` on that tick; with the three-decimal rendering, for
`t = 3.142`, `n = 3.271`, `x = 3.198` the text is
`{"true":3.142,"noisy":3.271,"filtered":3.198}`. -/
theorem broadcast_message (render : ℚ → String) (sinF : ℚ → ℚ) (st : LoopState)
    (i : TickInput) (h : UPDATE_INTERVAL ≤ elapsed (millis i.uptime0) st.lastUpdate) :
    broadcasts (loop render sinF st i).2 =
      ["\x7b\"true\":" ++ render (true_value sinF (millis i.uptime2)) ++
        ",\"noisy\":" ++
        render (noisy_measurement (true_value sinF (millis i.uptime2)) i.rnd) ++
        ",\"filtered\":" ++
        render (update st.kalmanFilter
          (noisy_measurement (true_value sinF (millis i.uptime2)) i.rnd)).2 ++ "\x7d"] ∧
    jsonString String3 (3142 / 1000) (3271 / 1000) (3198 / 1000) =
      "\x7b\"true\":3.142,\"noisy\":3.271,\"filtered\":3.198\x7d" := by
  refine ⟨?_, by decide!⟩
  rw [loop_fire render sinF st i h]
  rfl

/-- Witness of C9: the first iteration at uptime 50 ms with `random` giving `37`, the
sine taken as constantly `0`. -/
theorem broadcast_message_witness :
    UPDATE_INTERVAL ≤ elapsed (millis 50) 0 ∧
    broadcasts (loop String3 (fun _ => 0) ⟨0, kalmanFilterAfterSetup⟩ ⟨50, 50, 50, 37⟩).2 =
      ["\x7b\"true\":0.000,\"noisy\":0.370,\"filtered\":0.194\x7d"] :=
  ⟨by decide,
    (broadcast_message String3 (fun _ => 0) ⟨0, kalmanFilterAfterSetup⟩ ⟨50, 50, 50, 37⟩
      (by decide)).1.trans (by decide!)⟩

/-- C10: one iteration of `loop()`, the clock and `lastUpdate` being 32-bit unsigned,
runs update and broadcast if and only if `(now - lastUpdate) mod 2^32 ≥ 50`, `now` being
the first clock reading.  When it fires, `lastUpdate` becomes the second clock reading
and the calls are, in order: the clock and `random` (sample), one `update`, one
`textAll` (publish), then `printf`.  When it does not fire, `lastUpdate` and the filter
are unchanged and the only call is the clock reading.  Hence, if an iteration fires,
the following iterations `mids` broadcast nothing and the next one fires, then the
clock reading that next fire is decided on is at least 50 ms, modulo `2^32`, after the
reading the first fire stored in `lastUpdate`. -/
theorem loop_tick (render : ℚ → String) (sinF : ℚ → ℚ) (st : LoopState) (i : TickInput)
    (mids : List TickInput) (i2 : TickInput) :
    ((updateCalls (loop render sinF st i).2 ≠ [] ↔
        50 ≤ (millis i.uptime0 + 2 ^ 32 - st.lastUpdate % 2 ^ 32) % 2 ^ 32) ∧
      (broadcasts (loop render sinF st i).2 ≠ [] ↔
        50 ≤ (millis i.uptime0 + 2 ^ 32 - st.lastUpdate % 2 ^ 32) % 2 ^ 32)) ∧
    (UPDATE_INTERVAL ≤ elapsed (millis i.uptime0) st.lastUpdate →
      (loop render sinF st i).1.lastUpdate = millis i.uptime1 ∧
      (loop render sinF st i).1.kalmanFilter =
        (update st.kalmanFilter
          (noisy_measurement (true_value sinF (millis i.uptime2)) i.rnd)).1 ∧
      (loop render sinF st i).2 =
        [Event.millis (millis i.uptime0), Event.millis (millis i.uptime1),
          Event.millis (millis i.uptime2), Event.random i.rnd,
          Event.update (noisy_measurement (true_value sinF (millis i.uptime2)) i.rnd),
          Event.textAll (jsonString render (true_value sinF (millis i.uptime2))
            (noisy_measurement (true_value sinF (millis i.uptime2)) i.rnd)
            (update st.kalmanFilter
              (noisy_measurement (true_value sinF (millis i.uptime2)) i.rnd)).2),
          Event.printf (true_value sinF (millis i.uptime2))
            (noisy_measurement (true_value sinF (millis i.uptime2)) i.rnd)
            (update st.kalmanFilter
              (noisy_measurement (true_value sinF (millis i.uptime2)) i.rnd)).2] ∧
      (updateCalls (loop render sinF st i).2).length = 1 ∧
      (broadcasts (loop render sinF st i).2).length = 1) ∧
    (¬ UPDATE_INTERVAL ≤ elapsed (millis i.uptime0) st.lastUpdate →
      (loop render sinF st i).1 = st ∧
      (loop render sinF st i).2 = [Event.millis (millis i.uptime0)] ∧
      updateCalls (loop render sinF st i).2 = [] ∧
      broadcasts (loop render sinF st i).2 = []) ∧
    (UPDATE_INTERVAL ≤ elapsed (millis i.uptime0) st.lastUpdate →
      broadcasts (loops render sinF (loop render sinF st i).1 mids).2 = [] →
      broadcasts (loop render sinF
        (loops render sinF (loop render sinF st i).1 mids).1 i2).2 ≠ [] →
      50 ≤ (millis i2.uptime0 + 2 ^ 32 - millis i.uptime1) % 2 ^ 32) := by
  have hel : ∀ a b : Nat,
      elapsed (millis a) b = (millis a + 2 ^ 32 - b % 2 ^ 32) % 2 ^ 32 := by
    intro a b
    simp [elapsed, millis]
  have hiff : ∀ (s : LoopState) (j : TickInput),
      broadcasts (loop render sinF s j).2 ≠ [] ↔
        UPDATE_INTERVAL ≤ elapsed (millis j.uptime0) s.lastUpdate := by
    intro s j
    by_cases hc : UPDATE_INTERVAL ≤ elapsed (millis j.uptime0) s.lastUpdate
    · rw [loop_fire render sinF s j hc]
      simp [broadcasts, hc]
    · rw [loop_idle render sinF s j hc]
      simp [broadcasts, hc]
  refine ⟨⟨?_, ?_⟩, ?_, ?_, ?_⟩
  · rw [← hel]
    by_cases hc : UPDATE_INTERVAL ≤ elapsed (millis i.uptime0) st.lastUpdate
    · rw [loop_fire render sinF st i hc]
      simpa [updateCalls, UPDATE_INTERVAL] using hc
    · rw [loop_idle render sinF st i hc]
      simpa [updateCalls, UPDATE_INTERVAL] using hc
  · rw [← hel]
    exact hiff st i
  · intro hc
    rw [loop_fire render sinF st i hc]
    simp [updateCalls, broadcasts]
  · intro hc
    rw [loop_idle render sinF st i hc]
    simp [updateCalls, broadcasts]
  · intro hc hsilent hnext
    rw [loops_silent render sinF mids _ hsilent] at hnext
    have h2 := (hiff _ i2).mp hnext
    rw [loop_fire render sinF st i hc, hel] at h2
    simpa [UPDATE_INTERVAL, millis] using h2

/-- Witness of C10 across a wrap of the clock: a fire 10 ms before the wrap, an idle
iteration 20 ms after it, and the next fire 40 ms after it, 50 ms after the first. -/
theorem loop_tick_witness :
    UPDATE_INTERVAL ≤ elapsed (millis 4294967286) 0 ∧
    broadcasts (loops String3 (fun _ => 0)
      (loop String3 (fun _ => 0) ⟨0, kalmanFilterAfterSetup⟩
        ⟨4294967286, 4294967286, 4294967286, 37⟩).1
      [⟨4294967316, 4294967316, 4294967316, 5⟩]).2 = [] ∧
    (50 : Nat) ≤ (millis 4294967336 + 2 ^ 32 - millis 4294967286) % 2 ^ 32 :=
  ⟨by decide, by decide!,
    (loop_tick String3 (fun _ => 0) ⟨0, kalmanFilterAfterSetup⟩
      ⟨4294967286, 4294967286, 4294967286, 37⟩ [⟨4294967316, 4294967316, 4294967316, 5⟩]
      ⟨4294967336, 4294967336, 4294967336, -12⟩).2.2.2 (by decide) (by decide!)
      (by decide!)⟩
